import Mathlib

/-!
Verification of the bingo board generator, board state machine and export
pipeline of the spotify_bingo_creator repository.

The definitions below are a shallow embedding of the TypeScript sources:
* src/unnamed/part_001 (lib/utils/bingo.ts): board generation, toggling,
  win detection, reset;
* src/src/lib/utils/playlist.ts: the shuffle helper (identical Fisher-Yates
  code to shuffleArray in bingo.ts, so a single embedding models both);
* src/src/lib/server/pdf-export.ts and canvas-pdf-export.ts: document
  content construction and per-board archive construction;
* src/src/routes/pdf.remote.ts: the export packager.

JavaScript numbers are modelled as Nat (or Int where the source compares
against negative values), thrown Error values as Except String, and the
ambient sources of nondeterminism (Math.random, Date.now, the Spotify
client, the canvas/pdf rendering backends and the base64 encoder) as
explicit function parameters.
-/

set_option maxRecDepth 4000

/-- Embedding of the PlaylistSongInfo interface
(src/src/lib/interfaces/spotify.interface.ts). -/
structure PlaylistSongInfo where
  id : String
  name : String
  artist : String
  artists : List String
  uri : String
  link : String
  image : Option String
  durationMs : Nat
  deriving DecidableEq

/-- Embedding of the BingoCell interface (src/unnamed/part_001, lines 3-7). -/
structure BingoCell where
  id : String
  song : PlaylistSongInfo
  marked : Bool
  deriving DecidableEq

/-- Embedding of the BingoBoard interface (src/unnamed/part_001, lines 9-13). -/
structure BingoBoard where
  id : String
  cells : List (List BingoCell)
  size : Nat
  deriving DecidableEq

/-- The FreeSpace sentinel song placed in the centre cell
(src/unnamed/part_001, line 62). -/
def freeSpaceSong : PlaylistSongInfo :=
  { id := "free", name := "FREE", artist := "SPACE", artists := [], uri := "",
    link := "", image := none, durationMs := 0 }

/-- Cell identifier string, the template literal row-col of the source
(src/unnamed/part_001, lines 61 and 67). -/
def cellId (row col : Nat) : String :=
  toString row ++ "-" ++ toString col

/-- A default cell, standing in for the JavaScript undefined that an
out-of-range index would produce; every use below is guarded so that the
default is never reached on well-formed boards. -/
def emptyCell : BingoCell :=
  { id := "", song := freeSpaceSong, marked := false }

/-- A default board used only as a getD fallback on concrete inputs. -/
def emptyBoard : BingoBoard :=
  { id := "", cells := [], size := 0 }

/-- The destructuring swap of the Fisher-Yates loop body
(src/unnamed/part_001, line 22): exchange the entries at positions i and j.
Math.random guarantees j is in range in the source, so the fallthrough arm
is unreachable there. -/
def listSwap {α : Type} (l : List α) (i j : Nat) : List α :=
  match l[i]?, l[j]? with
  | some x, some y => (l.set i y).set j x
  | _, _ => l

/-- The Fisher-Yates loop of shuffleArray (src/unnamed/part_001, lines
20-23): the counter runs from the current value down to 1, swapping index i
with the randomly drawn index rand i (the source draws
Math.floor(Math.random() * (i + 1))). -/
def fisherYatesAux {α : Type} (rand : Nat → Nat) : Nat → List α → List α
  | 0, l => l
  | i + 1, l => fisherYatesAux rand i (listSwap l (i + 1) (rand (i + 1)))

/-- shuffleArray (src/unnamed/part_001, lines 18-25), identical to shuffle
in src/src/lib/utils/playlist.ts lines 73-80.  The source first copies the
input array and then swaps in place on the copy; the embedding is pure, and
rand i models the random index drawn when the loop counter equals i. -/
def shuffleArray {α : Type} (rand : Nat → Nat) (array : List α) : List α :=
  fisherYatesAux rand (array.length - 1) array

/-- The required track count as the specification states it: size squared,
minus one exactly when size is 5 and the free space is included. -/
def requiredCount (size : Nat) (includeFreeSpace : Bool) : Nat :=
  if size = 5 ∧ includeFreeSpace = true then size * size - 1 else size * size

/-- The error message thrown by generateSpotifyBingo when the pool is too
small (src/unnamed/part_001, lines 42-44); it reports the required count
and the available count. -/
def insufficientTracksMsg (size cellCount got : Nat) : String :=
  "Need at least " ++ toString cellCount ++ " songs to generate a " ++
    toString size ++ "x" ++ toString size ++ " bingo board. Got " ++
    toString got ++ "."

/-- The inner column loop of generateSpotifyBingo (src/unnamed/part_001,
lines 57-72).  The first argument is the number of columns still to fill,
then the current column and the current songIndex; the result pairs the
cells of the row tail with the songIndex after the loop.  The centre test
and the cell literals are taken verbatim from the source. -/
def fillRowAux (size : Nat) (includeFreeSpace : Bool)
    (selectedSongs : List PlaylistSongInfo) (row : Nat) :
    Nat → Nat → Nat → List BingoCell × Nat
  | 0, _, idx => ([], idx)
  | n + 1, col, idx =>
    if size == 5 && includeFreeSpace && row == 2 && col == 2 then
      let rest := fillRowAux size includeFreeSpace selectedSongs row n (col + 1) idx
      ({ id := cellId row col, song := freeSpaceSong, marked := true } :: rest.1, rest.2)
    else
      let rest := fillRowAux size includeFreeSpace selectedSongs row n (col + 1) (idx + 1)
      ({ id := cellId row col, song := selectedSongs.getD idx freeSpaceSong,
         marked := false } :: rest.1, rest.2)

/-- The outer row loop of generateSpotifyBingo (src/unnamed/part_001, lines
55-73), threading the songIndex across rows. -/
def fillRowsAux (size : Nat) (includeFreeSpace : Bool)
    (selectedSongs : List PlaylistSongInfo) :
    Nat → Nat → Nat → List (List BingoCell) × Nat
  | 0, _, idx => ([], idx)
  | m + 1, row, idx =>
    let filled := fillRowAux size includeFreeSpace selectedSongs row size 0 idx
    let rest := fillRowsAux size includeFreeSpace selectedSongs m (row + 1) filled.2
    (filled.1 :: rest.1, rest.2)

/-- generateSpotifyBingo (src/unnamed/part_001, lines 34-80).  rand models
Math.random as in shuffleArray, and boardId models generateBoardId (line
108), which mixes Date.now with Math.random; a thrown Error becomes an
Except.error carrying the thrown message. -/
def generateSpotifyBingo (rand : Nat → Nat) (boardId : String)
    (songs : List PlaylistSongInfo) (size : Nat) (includeFreeSpace : Bool) :
    Except String BingoBoard :=
  let cellCount := size * size - (if includeFreeSpace && size == 5 then 1 else 0)
  if songs.length < cellCount then
    Except.error (insufficientTracksMsg size cellCount songs.length)
  else
    let shuffled := shuffleArray rand songs
    let selectedSongs := shuffled.take cellCount
    Except.ok
      { id := boardId,
        cells := (fillRowsAux size includeFreeSpace selectedSongs size 0 0).1,
        size := size }

/-- generateMultipleBoards (src/unnamed/part_001, lines 90-103): count
independent calls of the single-board generator; the random draws and the
board id of the i-th call are rand i and boardIds i. -/
def generateMultipleBoards (rand : Nat → Nat → Nat) (boardIds : Nat → String)
    (songs : List PlaylistSongInfo) (count : Nat) (size : Nat)
    (includeFreeSpace : Bool) : Except String (List BingoBoard) :=
  (List.range count).mapM fun i =>
    generateSpotifyBingo (rand i) (boardIds i) songs size includeFreeSpace

/-- Apply f to the entry at position n, leaving the list unchanged when n
is out of range.  This models the JavaScript in-place update
cells[row][col] = ... of the source on in-range indices. -/
def modifyAt {α : Type} : List α → Nat → (α → α) → List α
  | [], _, _ => []
  | a :: t, 0, f => f a :: t
  | a :: t, n + 1, f => a :: modifyAt t n f

/-- The message thrown by toggleCell on an out-of-range position
(src/unnamed/part_001, line 117). -/
def invalidPosMsg (row col : Int) : String :=
  "Invalid cell position: (" ++ toString row ++ ", " ++ toString col ++ ")"

/-- toggleCell (src/unnamed/part_001, lines 115-120).  Row and column are
Int because the source range check compares against 0 from below; the
in-place mutation of one cell becomes a pure board update. -/
def toggleCell (board : BingoBoard) (row col : Int) : Except String BingoBoard :=
  if row < 0 || (board.size : Int) ≤ row || col < 0 || (board.size : Int) ≤ col then
    Except.error (invalidPosMsg row col)
  else
    Except.ok
      { board with
        cells := modifyAt board.cells row.toNat fun rowCells =>
          modifyAt rowCells col.toNat fun cell => { cell with marked := !cell.marked } }

/-- isRowComplete (src/unnamed/part_001, lines 125-127): every cell of the
requested row is marked. -/
def isRowComplete (board : BingoBoard) (row : Nat) : Bool :=
  (board.cells.getD row []).all fun cell => cell.marked

/-- isColumnComplete (src/unnamed/part_001, lines 132-134). -/
def isColumnComplete (board : BingoBoard) (col : Nat) : Bool :=
  board.cells.all fun rowCells => (rowCells.getD col emptyCell).marked

/-- The index-aware every of JavaScript arrays: the callback receives the
element together with its index. -/
def everyIdx {α : Type} (p : Nat → α → Bool) : Nat → List α → Bool
  | _, [] => true
  | i, x :: rest => p i x && everyIdx p (i + 1) rest

/-- isDiagonalComplete (src/unnamed/part_001, lines 141-150): diagonal 0 is
top-left to bottom-right, diagonal 1 top-right to bottom-left, anything
else yields false. -/
def isDiagonalComplete (board : BingoBoard) (diagonal : Nat) : Bool :=
  if diagonal == 0 then
    everyIdx (fun i rowCells => (rowCells.getD i emptyCell).marked) 0 board.cells
  else if diagonal == 1 then
    everyIdx (fun i rowCells => (rowCells.getD (board.size - 1 - i) emptyCell).marked)
      0 board.cells
  else
    false

/-- hasWon (src/unnamed/part_001, lines 163-179): the early-return loops
over rows and columns become any over the index range. -/
def hasWon (board : BingoBoard) : Bool :=
  ((List.range board.size).any fun i => isRowComplete board i) ||
  ((List.range board.size).any fun i => isColumnComplete board i) ||
  isDiagonalComplete board 0 || isDiagonalComplete board 1

/-- getCompletedLines (src/unnamed/part_001, lines 184-206): the pushes of
the source, in source order (row lines, then column lines, then the two
diagonals). -/
def getCompletedLines (board : BingoBoard) : List String :=
  (((List.range board.size).filter fun i => isRowComplete board i).map
      fun i => "row-" ++ toString i) ++
  (((List.range board.size).filter fun i => isColumnComplete board i).map
      fun i => "col-" ++ toString i) ++
  (if isDiagonalComplete board 0 then ["diag-0"] else []) ++
  (if isDiagonalComplete board 1 then ["diag-1"] else [])

/-- resetBoard (src/unnamed/part_001, lines 228-239): the double loop over
positions below board.size, marking the centre cell of a size-5 board and
unmarking every other visited cell. -/
def resetBoard (board : BingoBoard) : BingoBoard :=
  { board with
    cells := (List.range board.size).foldl (fun cs row =>
      (List.range board.size).foldl (fun cs2 col =>
        modifyAt cs2 row fun rowCells =>
          modifyAt rowCells col fun cell =>
            if board.size == 5 && row == 2 && col == 2 then
              { cell with marked := true }
            else
              { cell with marked := false }) cs) board.cells }

/-- The cell of a board at a given position (observation function used in
the claims; the defaults are never reached on well-formed boards). -/
def cellAt (board : BingoBoard) (row col : Nat) : BingoCell :=
  (board.cells.getD row []).getD col emptyCell

/-- Well-formedness of a board: a size-by-size grid of cells. -/
def BingoBoard.wf (board : BingoBoard) : Prop :=
  board.cells.length = board.size ∧ ∀ rowCells ∈ board.cells, rowCells.length = board.size

/-- Row completeness stated over the cells themselves. -/
def RowMarked (board : BingoBoard) (row : Nat) : Prop :=
  ∀ col, col < board.size → (cellAt board row col).marked = true

/-- Column completeness stated over the cells themselves. -/
def ColMarked (board : BingoBoard) (col : Nat) : Prop :=
  ∀ row, row < board.size → (cellAt board row col).marked = true

/-- Main-diagonal completeness stated over the cells themselves. -/
def Diag0Marked (board : BingoBoard) : Prop :=
  ∀ i, i < board.size → (cellAt board i i).marked = true

/-- Anti-diagonal completeness stated over the cells themselves. -/
def Diag1Marked (board : BingoBoard) : Prop :=
  ∀ i, i < board.size → (cellAt board i (board.size - 1 - i)).marked = true

/-- The songs of one row in column order, skipping the columns the given
predicate designates as free. -/
def rowSongsFrom (isFree : Nat → Bool) : List BingoCell → Nat → List PlaylistSongInfo
  | [], _ => []
  | cell :: rest, col =>
    if isFree col then rowSongsFrom isFree rest (col + 1)
    else cell.song :: rowSongsFrom isFree rest (col + 1)

/-- The songs of a grid in row-major order, skipping free positions. -/
def boardSongsFrom (freePos : Nat → Nat → Bool) :
    List (List BingoCell) → Nat → List PlaylistSongInfo
  | [], _ => []
  | rowCells :: rest, row =>
    rowSongsFrom (freePos row) rowCells 0 ++ boardSongsFrom freePos rest (row + 1)

/-- The songs held by the non-free cells of a board in row-major order,
where the free position is the centre cell exactly when the board has size
5 and the free space option was used. -/
def boardSongs (includeFreeSpace : Bool) (board : BingoBoard) : List PlaylistSongInfo :=
  boardSongsFrom
    (fun row col => board.size == 5 && includeFreeSpace && row == 2 && col == 2)
    board.cells 0

/-- The index-aware map of JavaScript arrays, used where the source loops
carry the index alongside the element. -/
def mapIdxAux {α β : Type} (f : Nat → α → β) : Nat → List α → List β
  | _, [] => []
  | i, x :: rest => f i x :: mapIdxAux f (i + 1) rest

/-- One cell of the pdfmake table that boardToPDFTable builds
(src/src/lib/server/pdf-export.ts, lines 55-70): the text, the bold flag
and the tiered font size. -/
structure PDFCellDef where
  text : String
  bold : Bool
  fontSize : Nat
  deriving DecidableEq

/-- The table body built by boardToPDFTable (src/src/lib/server/pdf-export.ts,
lines 38-74): gridSize is board.cells.length, the centre cell of a 5-by-5
grid shows the bold FREE label when showFreeSpace is set, and every other
cell shows the track name at a font size tiered by grid size. -/
def boardToPDFTableBody (board : BingoBoard) (showFreeSpace : Bool) :
    List (List PDFCellDef) :=
  mapIdxAux (fun i rowCells =>
    mapIdxAux (fun j cell =>
      if showFreeSpace && board.cells.length == 5 && i == 2 && j == 2 then
        { text := "FREE", bold := true, fontSize := 16 }
      else
        { text := cell.song.name, bold := false,
          fontSize :=
            if board.cells.length == 3 then 11
            else if board.cells.length == 4 then 10 else 9 }) 0 rowCells)
    0 board.cells

/-- One element of the pdfmake content array that generateBingoBoardsPDF
pushes per board (src/src/lib/server/pdf-export.ts, lines 156-180): the
table, with a page break before every board except the first. -/
structure ContentItem where
  pageBreakBefore : Bool
  body : List (List PDFCellDef)
  deriving DecidableEq

/-- The content array built by generateBingoBoardsPDF
(src/src/lib/server/pdf-export.ts, lines 156-180): the source sets
pageBreak to the string before exactly when the board index is nonzero. -/
def pdfContentAux (showFreeSpace : Bool) : Nat → List BingoBoard → List ContentItem
  | _, [] => []
  | i, board :: rest =>
    { pageBreakBefore := i != 0, body := boardToPDFTableBody board showFreeSpace } ::
      pdfContentAux showFreeSpace (i + 1) rest

/-- The content array of the single-document render, board order preserved. -/
def generateBingoBoardsPDFContent (boards : List BingoBoard)
    (showFreeSpace : Bool) : List ContentItem :=
  pdfContentAux showFreeSpace 0 boards

/-- Modelled from the spec: the page layout of the external pdfmake
renderer, which is not part of src/.  Spec section 4.3 states that each
board is one table that fits a page and that a pageBreak before an element
starts a new page, so the pages of a content list are the maximal runs
delimited by elements carrying the break flag.  The accumulator holds the
current page. -/
def paginateAux (current : List ContentItem) :
    List ContentItem → List (List ContentItem)
  | [] => [current]
  | item :: rest =>
    if item.pageBreakBefore then current :: paginateAux [item] rest
    else paginateAux (current ++ [item]) rest

/-- Modelled from the spec: the pages an external pdfmake render of the
given content produces; empty content gives no board pages. -/
def paginate : List ContentItem → List (List ContentItem)
  | [] => []
  | item :: rest => paginateAux [item] rest

/-- JavaScript String.prototype.padStart with a single pad character: left
pad up to the target length, returning the string unchanged when it is
already long enough. -/
def padStart (s : String) (targetLength : Nat) (padChar : Char) : String :=
  String.mk (List.replicate (targetLength - s.length) padChar) ++ s

/-- The zip entries built by generateBingoBoardsImagesZip
(src/src/lib/server/canvas-pdf-export.ts, lines 190-207): one PNG per
board, named bingo_board_ then the 1-based index padded with zeros to
width 3.  The canvas renderer generateBoardImage is external I/O and is
abstracted as the renderImage parameter (board, 1-based number, free-space
flag). -/
def imagesZipAux (renderImage : BingoBoard → Nat → Bool → List Nat)
    (showFreeSpace : Bool) : Nat → List BingoBoard → List (String × List Nat)
  | _, [] => []
  | i, board :: rest =>
    ("bingo_board_" ++ padStart (toString (i + 1)) 3 '0' ++ ".png",
      renderImage board (i + 1) showFreeSpace) ::
      imagesZipAux renderImage showFreeSpace (i + 1) rest

/-- generateBingoBoardsImagesZip as the ordered list of zip entries it
files. -/
def generateBingoBoardsImagesZip (renderImage : BingoBoard → Nat → Bool → List Nat)
    (boards : List BingoBoard) (showFreeSpace : Bool) : List (String × List Nat) :=
  imagesZipAux renderImage showFreeSpace 0 boards

/-- The zip entries built by generateBingoBoardsPDFZip
(src/src/lib/server/pdf-export.ts, lines 208-225): one PDF per board,
named like the image entries but with the pdf extension; the per-board
pdfmake render generateBoardPDFBlob is abstracted as renderBoardPDF. -/
def pdfZipAux (renderBoardPDF : BingoBoard → Nat → Bool → List Nat)
    (showFreeSpace : Bool) : Nat → List BingoBoard → List (String × List Nat)
  | _, [] => []
  | i, board :: rest =>
    ("bingo_board_" ++ padStart (toString (i + 1)) 3 '0' ++ ".pdf",
      renderBoardPDF board (i + 1) showFreeSpace) ::
      pdfZipAux renderBoardPDF showFreeSpace (i + 1) rest

/-- generateBingoBoardsPDFZip as the ordered list of zip entries it files. -/
def generateBingoBoardsPDFZip (renderBoardPDF : BingoBoard → Nat → Bool → List Nat)
    (boards : List BingoBoard) (showFreeSpace : Bool) : List (String × List Nat) :=
  pdfZipAux renderBoardPDF showFreeSpace 0 boards

/-- The transport payload returned by the export endpoints
(src/src/routes/pdf.remote.ts). -/
structure ExportPayload where
  buffer : String
  filename : String
  deriving DecidableEq

/-- The date part of a JavaScript ISO timestamp: toISOString followed by
split at T and taking the first segment (src/src/routes/pdf.remote.ts,
line 44), which is the prefix before the first T. -/
def isoDatePart (timestamp : String) : String :=
  String.mk (timestamp.data.takeWhile fun ch => ch != 'T')

/-- exportPDF (src/src/routes/pdf.remote.ts, lines 18-51).  The Spotify
fetch is abstracted as the already-fetched songs, the canvas PDF renderer
generateBingoBoardsCanvasPDF as renderPDF, the Node base64 encoder as
base64, and new Date().toISOString() as nowTimestamp. -/
def exportPDFRun (songs : List PlaylistSongInfo) (boardCount boardSize : Nat)
    (includeFreeSpace : Bool) (rand : Nat → Nat → Nat) (boardIds : Nat → String)
    (renderPDF : List BingoBoard → List Nat) (base64 : List Nat → String)
    (nowTimestamp : String) : Except String ExportPayload :=
  match generateMultipleBoards rand boardIds songs boardCount boardSize includeFreeSpace with
  | Except.error e => Except.error e
  | Except.ok boards =>
    Except.ok
      { buffer := base64 (renderPDF boards),
        filename := "bingo_boards_" ++ isoDatePart nowTimestamp ++ ".pdf" }

/-- exportZIP (src/src/routes/pdf.remote.ts, lines 57-90), with the image
zip renderer generateBingoBoardsImagesZip abstracted as renderZip. -/
def exportZIPRun (songs : List PlaylistSongInfo) (boardCount boardSize : Nat)
    (includeFreeSpace : Bool) (rand : Nat → Nat → Nat) (boardIds : Nat → String)
    (renderZip : List BingoBoard → List Nat) (base64 : List Nat → String)
    (nowTimestamp : String) : Except String ExportPayload :=
  match generateMultipleBoards rand boardIds songs boardCount boardSize includeFreeSpace with
  | Except.error e => Except.error e
  | Except.ok boards =>
    Except.ok
      { buffer := base64 (renderZip boards),
        filename := "bingo_boards_" ++ isoDatePart nowTimestamp ++ ".zip" }

/-- A concrete distinct song for witnesses and counterexamples. -/
def sampleSong (n : Nat) : PlaylistSongInfo :=
  { id := "id" ++ toString n, name := "song" ++ toString n, artist := "artist",
    artists := [], uri := "", link := "", image := none, durationMs := 0 }

/-- A concrete pool of n pairwise distinct songs. -/
def samplePool (n : Nat) : List PlaylistSongInfo :=
  (List.range n).map sampleSong

/-- Build a concrete board from a matrix of marks, for witnesses. -/
def boardOfMarks (marks : List (List Bool)) : BingoBoard :=
  { id := "demo", size := marks.length,
    cells := mapIdxAux (fun r rowMarks =>
      mapIdxAux (fun c m =>
        { id := cellId r c, song := sampleSong (r * marks.length + c), marked := m })
        0 rowMarks) 0 marks }

/-- A 3-by-3 board whose first row is fully marked and nothing else. -/
def demoRowBoard : BingoBoard :=
  boardOfMarks [[true, true, true], [false, false, false], [false, false, false]]

/-! ### Permutation property of the Fisher-Yates shuffle -/

theorem cons_set_perm {α : Type} (l : List α) (i : Nat) (a : α) (hi : i < l.length) :
    List.Perm (l[i] :: l.set i a) (a :: l) := by
  induction l generalizing i with
  | nil => simp at hi
  | cons x t ih =>
    cases i with
    | zero => simpa using List.Perm.swap a x t
    | succ i =>
      have hit : i < t.length := by simpa using hi
      have h1 := ih i hit
      exact (List.Perm.swap x t[i] (t.set i a)).trans
        ((List.Perm.cons x h1).trans (List.Perm.swap a x t))

theorem set_set_swap_perm {α : Type} (l : List α) (i j : Nat)
    (hi : i < l.length) (hj : j < l.length) :
    List.Perm ((l.set i l[j]).set j l[i]) l := by
  have hj2 : j < (l.set i l[j]).length := by simpa using hj
  have hmj : (l.set i l[j])[j] = l[j] := by
    by_cases hij : i = j
    · subst hij; exact List.getElem_set_self _
    · exact List.getElem_set_ne hij _
  have h1 := cons_set_perm (l.set i l[j]) j l[i] hj2
  rw [hmj] at h1
  have h2 := cons_set_perm l i l[j] hi
  exact (h1.trans h2).cons_inv

theorem listSwap_perm {α : Type} (l : List α) (i j : Nat) :
    List.Perm (listSwap l i j) l := by
  unfold listSwap
  cases hix : l[i]? with
  | none => simp
  | some x =>
    cases hjx : l[j]? with
    | none => simp
    | some y =>
      simp only
      obtain ⟨hi, hxi⟩ := List.getElem?_eq_some.mp hix
      obtain ⟨hj, hyj⟩ := List.getElem?_eq_some.mp hjx
      rw [← hxi, ← hyj]
      exact set_set_swap_perm l i j hi hj

theorem fisherYatesAux_perm {α : Type} (rand : Nat → Nat) (n : Nat) (l : List α) :
    List.Perm (fisherYatesAux rand n l) l := by
  induction n generalizing l with
  | zero => exact List.Perm.refl l
  | succ n ih =>
    exact (ih (listSwap l (n + 1) (rand (n + 1)))).trans
      (listSwap_perm l (n + 1) (rand (n + 1)))

theorem shuffleArray_perm {α : Type} (rand : Nat → Nat) (l : List α) :
    List.Perm (shuffleArray rand l) l :=
  fisherYatesAux_perm rand (l.length - 1) l

/-- Claim C10: for every input list and every sequence of random draws, the
Fisher-Yates shuffle (shuffleArray in bingo.ts, identically shuffle in
playlist.ts) returns a permutation of its input: same length and the same
multiset of elements (equal counts for every element).  The source copies
the input before swapping, so the caller's array is untouched; the pure
embedding reflects that the result is a fresh value. -/
theorem shuffleArray_is_permutation {α : Type} [DecidableEq α]
    (rand : Nat → Nat) (l : List α) :
    List.Perm (shuffleArray rand l) l ∧
    (shuffleArray rand l).length = l.length ∧
    ∀ x : α, (shuffleArray rand l).count x = l.count x := by
  refine ⟨shuffleArray_perm rand l, (shuffleArray_perm rand l).length_eq, ?_⟩
  intro x
  exact (shuffleArray_perm rand l).count_eq x

/-! ### Required count and the insufficient-tracks error -/

theorem requiredCount_eq (size : Nat) (fs : Bool) :
    requiredCount size fs = size * size - (if fs && size == 5 then 1 else 0) := by
  cases fs with
  | false => simp [requiredCount]
  | true =>
    by_cases h5 : size = 5
    · subst h5; simp [requiredCount]
    · simp [requiredCount, h5]

/-- Claim C2: the generator fails with the insufficient-tracks error,
reporting the required and the available count, exactly when the pool is
smaller than the required count (size squared, minus one when size is 5
with the free space); otherwise it returns a board. -/
theorem generateSpotifyBingo_insufficient_iff (rand : Nat → Nat) (boardId : String)
    (songs : List PlaylistSongInfo) (size : Nat) (fs : Bool) :
    (generateSpotifyBingo rand boardId songs size fs
        = Except.error (insufficientTracksMsg size (requiredCount size fs) songs.length)
      ↔ songs.length < requiredCount size fs) ∧
    (songs.length < requiredCount size fs
      ∨ ∃ b, generateSpotifyBingo rand boardId songs size fs = Except.ok b) := by
  unfold generateSpotifyBingo
  rw [← requiredCount_eq]
  by_cases h : songs.length < requiredCount size fs
  · simp [h]
  · simp [h]

/-! ### Shape and content of the generated grid -/

theorem fillRowAux_fst_length (size : Nat) (fs : Bool) (sel : List PlaylistSongInfo)
    (row : Nat) : ∀ n col idx, (fillRowAux size fs sel row n col idx).1.length = n := by
  intro n
  induction n with
  | zero => intro col idx; rfl
  | succ n ih =>
    intro col idx
    unfold fillRowAux
    by_cases h : (size == 5 && fs && row == 2 && col == 2) = true
    · simp [h, ih]
    · simp [h, ih]

theorem fillRowsAux_fst_length (size : Nat) (fs : Bool) (sel : List PlaylistSongInfo) :
    ∀ m row idx, (fillRowsAux size fs sel m row idx).1.length = m := by
  intro m
  induction m with
  | zero => intro row idx; rfl
  | succ m ih => intro row idx; simp [fillRowsAux, ih]

theorem fillRowsAux_mem_length (size : Nat) (fs : Bool) (sel : List PlaylistSongInfo) :
    ∀ m row idx, ∀ rowCells ∈ (fillRowsAux size fs sel m row idx).1,
      rowCells.length = size := by
  intro m
  induction m with
  | zero => intro row idx r hr; simp [fillRowsAux] at hr
  | succ m ih =>
    intro row idx r hr
    simp only [fillRowsAux, List.mem_cons] at hr
    rcases hr with h | h
    · subst h; exact fillRowAux_fst_length size fs sel row size 0 idx
    · exact ih (row + 1) _ r h

theorem map_getD_range {α : Type} (l : List α) (d : α) :
    (List.range l.length).map (fun i => l.getD i d) = l := by
  induction l with
  | nil => rfl
  | cons a t ih =>
    rw [List.length_cons, List.range_succ_eq_map, List.map_cons, List.map_map]
    have h2 : ((fun i => (a :: t).getD i d) ∘ (· + 1)) = fun i => t.getD i d := by
      funext i; rfl
    rw [h2, ih]
    rfl

theorem flatten_map_range_grid {α : Type} (f : Nat → α) (m n : Nat) :
    ((List.range m).map fun k => (List.range n).map fun c => f (k * n + c)).flatten
      = (List.range (m * n)).map f := by
  induction m with
  | zero => simp
  | succ m ih =>
    rw [List.range_succ, List.map_append, List.flatten_append, ih]
    have hmn : (m + 1) * n = m * n + n := by ring
    rw [hmn, List.range_add, List.map_append, List.map_map]
    simp [Function.comp]

theorem fillRowAux_closed (size : Nat) (fs : Bool) (sel : List PlaylistSongInfo)
    (row : Nat) (hrow : (size == 5 && fs && row == 2) = false) :
    ∀ n col idx, fillRowAux size fs sel row n col idx =
      ((List.range n).map fun k =>
        ({ id := cellId row (col + k), song := sel.getD (idx + k) freeSpaceSong,
           marked := false } : BingoCell),
       idx + n) := by
  intro n
  induction n with
  | zero => intro col idx; simp [fillRowAux]
  | succ n ih =>
    intro col idx
    have hcond : (size == 5 && fs && row == 2 && col == 2) = false := by
      rw [hrow]; rfl
    unfold fillRowAux
    rw [hcond]
    simp only [Bool.false_eq_true, if_false]
    rw [ih (col + 1) (idx + 1)]
    refine Prod.ext ?_ ?_
    · simp only [List.range_succ_eq_map, List.map_cons, List.map_map, Nat.add_zero]
      congr 1
      apply List.map_congr_left
      intro k _
      simp only [Function.comp_apply]
      have e1 : col + 1 + k = col + (k + 1) := by omega
      have e2 : idx + 1 + k = idx + (k + 1) := by omega
      rw [e1, e2]
    · simp only
      omega

theorem fillRowsAux_closed (size : Nat) (fs : Bool) (sel : List PlaylistSongInfo)
    (hfs : (size == 5 && fs) = false) :
    ∀ m row idx, fillRowsAux size fs sel m row idx =
      ((List.range m).map fun k =>
        (List.range size).map fun c =>
          ({ id := cellId (row + k) c,
             song := sel.getD (idx + k * size + c) freeSpaceSong,
             marked := false } : BingoCell),
       idx + m * size) := by
  intro m
  induction m with
  | zero => intro row idx; simp [fillRowsAux]
  | succ m ih =>
    intro row idx
    have hrow : (size == 5 && fs && row == 2) = false := by rw [hfs]; rfl
    unfold fillRowsAux
    simp only [fillRowAux_closed size fs sel row hrow size 0, ih (row + 1)]
    refine Prod.ext ?_ ?_
    · simp only [List.range_succ_eq_map, List.map_cons, List.map_map, Nat.add_zero]
      congr 1
      · apply List.map_congr_left
        intro c _
        simp only [Nat.zero_add]
        have e1 : idx + c = idx + 0 * size + c := by omega
        rw [e1]
      · apply List.map_congr_left
        intro k _
        simp only [Function.comp_apply]
        apply List.map_congr_left
        intro c _
        have e1 : row + 1 + k = row + (k + 1) := by omega
        have e2 : idx + size + k * size + c = idx + (k + 1) * size + c := by ring
        rw [e1, e2]
    · simp only
      ring

theorem rowSongsFrom_false (isFree : Nat → Bool) (hf : ∀ c, isFree c = false) :
    ∀ (cellsRow : List BingoCell) (c0 : Nat),
      rowSongsFrom isFree cellsRow c0 = cellsRow.map fun cell => cell.song := by
  intro cellsRow
  induction cellsRow with
  | nil => intro c0; rfl
  | cons cell rest ih =>
    intro c0
    simp [rowSongsFrom, hf c0, ih (c0 + 1)]

theorem boardSongsFrom_false (freePos : Nat → Nat → Bool)
    (hf : ∀ r c, freePos r c = false) :
    ∀ (rows : List (List BingoCell)) (r0 : Nat),
      boardSongsFrom freePos rows r0
        = (rows.map fun rowCells => rowCells.map fun cell => cell.song).flatten := by
  intro rows
  induction rows with
  | nil => intro r0; rfl
  | cons rowCells rest ih =>
    intro r0
    simp [boardSongsFrom, rowSongsFrom_false (freePos r0) (hf r0), ih (r0 + 1)]

theorem getD_map_range {α : Type} (f : Nat → α) (n r : Nat) (d : α) (h : r < n) :
    ((List.range n).map f).getD r d = f r := by
  rw [List.getD_eq_getElem?_getD, List.getElem?_map, List.getElem?_range h]
  rfl

theorem take_shuffle_props (rand : Nat → Nat) (pool : List PlaylistSongInfo)
    (cc : Nat) (hnodup : pool.Nodup) (hcc : cc ≤ pool.length) :
    ((shuffleArray rand pool).take cc).length = cc ∧
    ((shuffleArray rand pool).take cc).Nodup ∧
    ∀ s ∈ (shuffleArray rand pool).take cc, s ∈ pool := by
  have hperm := shuffleArray_perm rand pool
  refine ⟨?_, ?_, ?_⟩
  · rw [List.length_take, hperm.length_eq]
    omega
  · exact List.Nodup.sublist (List.take_sublist cc _) (hperm.nodup_iff.mpr hnodup)
  · intro s hs
    exact hperm.mem_iff.mp (List.mem_of_mem_take hs)

/-- Claim C1: on a pool of pairwise distinct tracks at least as large as
the required count, the generator returns a size-by-size board carrying the
given id; its non-free cells, read in row-major order, hold exactly the
selected prefix of the shuffled pool, hence requiredCount pairwise distinct
tracks all drawn from the pool; every cell starts unmarked except that on a
5-by-5 board with the free space the centre cell (2,2) holds the marked
FreeSpace sentinel. -/
theorem generateSpotifyBingo_board_correct (rand : Nat → Nat) (boardId : String)
    (pool : List PlaylistSongInfo) (size : Nat) (fs : Bool) (b : BingoBoard)
    (hnodup : pool.Nodup)
    (hlen : requiredCount size fs ≤ pool.length)
    (hok : generateSpotifyBingo rand boardId pool size fs = Except.ok b) :
    b.size = size ∧ b.id = boardId ∧
    b.cells.length = size ∧ (∀ rowCells ∈ b.cells, rowCells.length = size) ∧
    boardSongs fs b = (shuffleArray rand pool).take (requiredCount size fs) ∧
    (boardSongs fs b).length = requiredCount size fs ∧
    (boardSongs fs b).Nodup ∧
    (∀ s ∈ boardSongs fs b, s ∈ pool) ∧
    (∀ r, r < size → ∀ c, c < size →
      (cellAt b r c).marked = (size == 5 && fs && r == 2 && c == 2)) ∧
    (size = 5 → fs = true →
      cellAt b 2 2 = { id := cellId 2 2, song := freeSpaceSong, marked := true }) := by
  have hnlt : ¬ pool.length < size * size - (if fs && size == 5 then 1 else 0) := by
    rw [← requiredCount_eq]
    omega
  simp only [generateSpotifyBingo] at hok
  rw [if_neg hnlt, ← requiredCount_eq] at hok
  simp only [Except.ok.injEq] at hok
  subst hok
  obtain ⟨hsel_len, hsel_nodup, hsel_mem⟩ :=
    take_shuffle_props rand pool (requiredCount size fs) hnodup hlen
  generalize hselEq : List.take (requiredCount size fs) (shuffleArray rand pool) = sel
    at hsel_len hsel_nodup hsel_mem ⊢
  have hsongs : boardSongs fs
      { id := boardId,
        cells := (fillRowsAux size fs sel size 0 0).1,
        size := size }
      = sel := by
    cases hfree : (size == 5 && fs) with
    | false =>
      have hrc : requiredCount size fs = size * size := by
        have hnot : ¬ (size = 5 ∧ fs = true) := by
          rintro ⟨h5, hfs⟩
          subst h5; subst hfs
          simp at hfree
        simp [requiredCount, hnot]
      unfold boardSongs
      simp only
      rw [fillRowsAux_closed size fs sel hfree size 0 0]
      rw [boardSongsFrom_false _ (by intro r c; rw [hfree]; rfl)]
      simp only [List.map_map]
      have hproj : ∀ k : Nat,
          ((fun (cs : List BingoCell) => cs.map fun cell => cell.song) ∘
            fun k => (List.range size).map fun c =>
              ({ id := cellId (0 + k) c,
                 song := sel.getD (0 + k * size + c) freeSpaceSong,
                 marked := false } : BingoCell)) k
          = (List.range size).map fun c => sel.getD (k * size + c) freeSpaceSong := by
        intro k
        simp [List.map_map, Function.comp]
      rw [List.map_congr_left fun k _ => hproj k]
      rw [flatten_map_range_grid (fun i => sel.getD i freeSpaceSong) size size]
      rw [← hrc, ← hsel_len]
      exact map_getD_range sel freeSpaceSong
    | true =>
      obtain ⟨h5b, hfsb⟩ := Bool.and_eq_true_iff.mp hfree
      have h5 : size = 5 := by simpa using h5b
      subst h5; subst hfsb
      have h24 : requiredCount 5 true = 24 := by simp [requiredCount]
      have hlen24 : sel.length = 24 := by rw [hsel_len, h24]
      have hrfl : boardSongs true
          { id := boardId,
            cells := (fillRowsAux 5 true sel 5 0 0).1,
            size := 5 }
          = (List.range 24).map fun i => sel.getD i freeSpaceSong := by
        rfl
      rw [hrfl, ← hlen24]
      exact map_getD_range sel freeSpaceSong
  refine ⟨rfl, rfl, fillRowsAux_fst_length size fs sel size 0 0,
    fillRowsAux_mem_length size fs sel size 0 0, hsongs, ?_, ?_, ?_, ?_, ?_⟩
  · rw [hsongs]; exact hsel_len
  · rw [hsongs]; exact hsel_nodup
  · rw [hsongs]; exact hsel_mem
  · intro r hr c hc
    cases hfree : (size == 5 && fs) with
    | false =>
      simp only [Bool.false_and]
      unfold cellAt
      simp only
      rw [fillRowsAux_closed size fs sel hfree size 0 0]
      simp only
      rw [getD_map_range _ size r [] hr, getD_map_range _ size c emptyCell hc]
    | true =>
      obtain ⟨h5b, hfsb⟩ := Bool.and_eq_true_iff.mp hfree
      have h5 : size = 5 := by simpa using h5b
      subst h5; subst hfsb
      interval_cases r <;> interval_cases c <;> rfl
  · intro h5 hfs
    subst h5; subst hfs
    rfl

/-- Witness for the C1 theorem: a concrete 3-by-3 generation from a pool of
nine distinct songs. -/
theorem generateSpotifyBingo_board_correct_witness :
    ((generateSpotifyBingo (fun _ => 0) "w" (samplePool 9) 3 false).toOption.getD
        emptyBoard).size = 3 ∧
    ((generateSpotifyBingo (fun _ => 0) "w" (samplePool 9) 3 false).toOption.getD
        emptyBoard).id = "w" ∧
    ((generateSpotifyBingo (fun _ => 0) "w" (samplePool 9) 3 false).toOption.getD
        emptyBoard).cells.length = 3 ∧
    (∀ rowCells ∈ ((generateSpotifyBingo (fun _ => 0) "w" (samplePool 9) 3
        false).toOption.getD emptyBoard).cells, rowCells.length = 3) ∧
    boardSongs false ((generateSpotifyBingo (fun _ => 0) "w" (samplePool 9) 3
        false).toOption.getD emptyBoard)
      = (shuffleArray (fun _ => 0) (samplePool 9)).take (requiredCount 3 false) ∧
    (boardSongs false ((generateSpotifyBingo (fun _ => 0) "w" (samplePool 9) 3
        false).toOption.getD emptyBoard)).length = requiredCount 3 false ∧
    (boardSongs false ((generateSpotifyBingo (fun _ => 0) "w" (samplePool 9) 3
        false).toOption.getD emptyBoard)).Nodup ∧
    (∀ s ∈ boardSongs false ((generateSpotifyBingo (fun _ => 0) "w" (samplePool 9) 3
        false).toOption.getD emptyBoard), s ∈ samplePool 9) ∧
    (∀ r, r < 3 → ∀ c, c < 3 →
      (cellAt ((generateSpotifyBingo (fun _ => 0) "w" (samplePool 9) 3
        false).toOption.getD emptyBoard) r c).marked
        = (3 == 5 && false && r == 2 && c == 2)) ∧
    (3 = 5 → false = true →
      cellAt ((generateSpotifyBingo (fun _ => 0) "w" (samplePool 9) 3
        false).toOption.getD emptyBoard) 2 2
        = { id := cellId 2 2, song := freeSpaceSong, marked := true }) :=
  generateSpotifyBingo_board_correct (fun _ => 0) "w" (samplePool 9) 3 false
    ((generateSpotifyBingo (fun _ => 0) "w" (samplePool 9) 3 false).toOption.getD
      emptyBoard)
    (by decide) (by decide) rfl

/-! ### Point updates and the reset loop -/

theorem modifyAt_length {α : Type} :
    ∀ (l : List α) (n : Nat) (f : α → α), (modifyAt l n f).length = l.length := by
  intro l
  induction l with
  | nil => intro n f; rfl
  | cons a t ih =>
    intro n f
    cases n with
    | zero => rfl
    | succ n => simp [modifyAt, ih n f]

theorem modifyAt_getElem? {α : Type} :
    ∀ (l : List α) (n : Nat) (f : α → α) (m : Nat),
      (modifyAt l n f)[m]? = if m = n then l[m]?.map f else l[m]? := by
  intro l
  induction l with
  | nil => intro n f m; simp [modifyAt]
  | cons a t ih =>
    intro n f m
    cases n with
    | zero =>
      cases m with
      | zero => simp [modifyAt]
      | succ m => simp [modifyAt]
    | succ n =>
      cases m with
      | zero => simp [modifyAt]
      | succ m => simpa [modifyAt] using ih n f m

theorem modifyAt_modifyAt {α : Type} :
    ∀ (l : List α) (n : Nat) (f g : α → α),
      modifyAt (modifyAt l n f) n g = modifyAt l n fun x => g (f x) := by
  intro l
  induction l with
  | nil => intro n f g; rfl
  | cons a t ih =>
    intro n f g
    cases n with
    | zero => rfl
    | succ n => simp [modifyAt, ih n f g]

theorem modifyAt_of_id {α : Type} (f : α → α) (hf : ∀ x, f x = x) :
    ∀ (l : List α) (n : Nat), modifyAt l n f = l := by
  intro l
  induction l with
  | nil => intro n; rfl
  | cons a t ih =>
    intro n
    cases n with
    | zero => simp [modifyAt, hf a]
    | succ n => simp [modifyAt, ih n]

theorem foldl_modifyAt_const_index {α β : Type} (r : Nat) (h : β → α → α) :
    ∀ (idxs : List β) (cs : List α),
      idxs.foldl (fun acc i => modifyAt acc r (h i)) cs
        = modifyAt cs r fun x => idxs.foldl (fun x i => h i x) x := by
  intro idxs
  induction idxs with
  | nil =>
    intro cs
    rw [List.foldl_nil]
    exact (modifyAt_of_id _ (fun x => List.foldl_nil) cs r).symm
  | cons i rest ih =>
    intro cs
    rw [List.foldl_cons, ih, modifyAt_modifyAt]
    simp only [List.foldl_cons]

theorem foldl_modifyAt_range_getElem? {α : Type} (g : Nat → α → α) :
    ∀ (n : Nat) (l : List α) (m : Nat),
      ((List.range n).foldl (fun acc i => modifyAt acc i (g i)) l)[m]?
        = if m < n then l[m]?.map (g m) else l[m]? := by
  intro n
  induction n with
  | zero => intro l m; simp
  | succ n ih =>
    intro l m
    rw [List.range_succ, List.foldl_append, List.foldl_cons, List.foldl_nil]
    rw [modifyAt_getElem?]
    by_cases hm : m = n
    · subst hm
      rw [if_pos rfl, ih]
      rw [if_neg (lt_irrefl m), if_pos (Nat.lt_succ_self m)]
    · rw [if_neg hm, ih]
      by_cases hlt : m < n
      · rw [if_pos hlt, if_pos (by omega)]
      · rw [if_neg hlt, if_neg (by omega)]

theorem foldl_modifyAt_length {α : Type} (g : Nat → α → α) :
    ∀ (idxs : List Nat) (l : List α),
      (idxs.foldl (fun acc i => modifyAt acc i (g i)) l).length = l.length := by
  intro idxs
  induction idxs with
  | nil => intro l; rfl
  | cons i rest ih =>
    intro l
    rw [List.foldl_cons, ih, modifyAt_length]

@[simp] theorem resetBoard_size (b : BingoBoard) : (resetBoard b).size = b.size := rfl

@[simp] theorem resetBoard_id (b : BingoBoard) : (resetBoard b).id = b.id := rfl

theorem resetBoard_getElem? (b : BingoBoard) (r : Nat) :
    (resetBoard b).cells[r]? =
      if r < b.size then
        b.cells[r]?.map fun rowCells =>
          (List.range b.size).foldl (fun rc col =>
            modifyAt rc col fun cell =>
              if b.size == 5 && r == 2 && col == 2 then { cell with marked := true }
              else { cell with marked := false }) rowCells
      else b.cells[r]? := by
  have hfun : (fun (cs : List (List BingoCell)) (row : Nat) =>
      (List.range b.size).foldl (fun cs2 col =>
        modifyAt cs2 row fun rowCells =>
          modifyAt rowCells col fun cell =>
            if b.size == 5 && row == 2 && col == 2 then { cell with marked := true }
            else { cell with marked := false }) cs)
      = fun (cs : List (List BingoCell)) (row : Nat) =>
          modifyAt cs row fun rowCells =>
            (List.range b.size).foldl (fun rc col =>
              modifyAt rc col fun cell =>
                if b.size == 5 && row == 2 && col == 2 then { cell with marked := true }
                else { cell with marked := false }) rowCells := by
    funext cs row
    exact foldl_modifyAt_const_index row _ (List.range b.size) cs
  have hcells : (resetBoard b).cells
      = (List.range b.size).foldl (fun (cs : List (List BingoCell)) (row : Nat) =>
          modifyAt cs row fun rowCells =>
            (List.range b.size).foldl (fun rc col =>
              modifyAt rc col fun cell =>
                if b.size == 5 && row == 2 && col == 2 then { cell with marked := true }
                else { cell with marked := false }) rowCells) b.cells := by
    show (List.range b.size).foldl _ b.cells = _
    rw [← hfun]
  rw [hcells]
  exact foldl_modifyAt_range_getElem? _ b.size b.cells r

theorem resetBoard_cellAt (b : BingoBoard) (hwf : b.wf) (r c : Nat)
    (hr : r < b.size) (hc : c < b.size) :
    cellAt (resetBoard b) r c =
      { cellAt b r c with marked := b.size == 5 && r == 2 && c == 2 } := by
  obtain ⟨hlen, hrows⟩ := hwf
  have hrlen : r < b.cells.length := by omega
  have hclen : c < b.cells[r].length := by
    rw [hrows _ (List.getElem_mem hrlen)]; exact hc
  have hcell : cellAt b r c = b.cells[r][c] := by
    unfold cellAt
    rw [List.getD_eq_getElem b.cells [] hrlen, List.getD_eq_getElem _ emptyCell hclen]
  rw [hcell]
  unfold cellAt
  rw [List.getD_eq_getElem?_getD ((resetBoard b).cells) r [], resetBoard_getElem? b r,
    if_pos hr, List.getElem?_eq_getElem hrlen]
  simp only [Option.map_some', Option.getD_some]
  rw [List.getD_eq_getElem?_getD, foldl_modifyAt_range_getElem?, if_pos hc,
    List.getElem?_eq_getElem hclen]
  simp only [Option.map_some', Option.getD_some]
  by_cases hcond : (b.size == 5 && r == 2 && c == 2) = true
  · rw [if_pos hcond, hcond]
  · simp only [Bool.not_eq_true] at hcond
    rw [if_neg (by simp [hcond]), hcond]

theorem resetBoard_idem (b : BingoBoard) : resetBoard (resetBoard b) = resetBoard b := by
  have h : ∀ r : Nat, (resetBoard (resetBoard b)).cells[r]? = (resetBoard b).cells[r]? := by
    intro r
    rw [resetBoard_getElem? (resetBoard b) r]
    simp only [resetBoard_size]
    rw [resetBoard_getElem? b r]
    by_cases hr : r < b.size
    · simp only [if_pos hr, Option.map_map]
      cases hco : b.cells[r]? with
      | none => rfl
      | some rc =>
        simp only [Option.map_some', Function.comp_apply]
        congr 1
        apply List.ext_getElem?
        intro c
        simp only [foldl_modifyAt_range_getElem?]
        by_cases hc : c < b.size
        · simp only [if_pos hc, Option.map_map]
          cases hcc : rc[c]? with
          | none => rfl
          | some cell =>
            simp only [Option.map_some', Function.comp_apply]
            by_cases hcond : (b.size == 5 && r == 2 && c == 2) = true
            · simp [hcond]
            · simp only [Bool.not_eq_true] at hcond
              simp [hcond]
        · simp only [if_neg hc]
    · simp only [if_neg hr]
  have hcells : (resetBoard (resetBoard b)).cells = (resetBoard b).cells :=
    List.ext_getElem? h
  calc resetBoard (resetBoard b)
      = { id := (resetBoard b).id, cells := (resetBoard (resetBoard b)).cells,
          size := (resetBoard b).size } := rfl
    _ = { id := (resetBoard b).id, cells := (resetBoard b).cells,
          size := (resetBoard b).size } := by rw [hcells]
    _ = resetBoard b := rfl

/-- Claim C3 (amended): resetBoard unmarks every cell except that on a
board of size 5 it always re-marks the centre cell (2,2), whether or not
that cell is a free space; every cell keeps its id and song, the board id
and size are unchanged, and resetBoard is idempotent.  Hence on a size-5
board exactly (2,2) is marked afterwards, and on a board of any other size
no cell is marked afterwards.  The original claim fails because the source
keys the re-mark on the size alone, not on the presence of a free-space
cell. -/
theorem resetBoard_amended (b : BingoBoard) (hwf : b.wf) :
    (∀ r, r < b.size → ∀ c, c < b.size →
      cellAt (resetBoard b) r c
        = { cellAt b r c with marked := b.size == 5 && r == 2 && c == 2 }) ∧
    resetBoard (resetBoard b) = resetBoard b ∧
    (resetBoard b).size = b.size ∧ (resetBoard b).id = b.id ∧
    (b.size ≠ 5 → ∀ r, r < b.size → ∀ c, c < b.size →
      (cellAt (resetBoard b) r c).marked = false) ∧
    (b.size = 5 → ∀ r, r < b.size → ∀ c, c < b.size →
      ((cellAt (resetBoard b) r c).marked = true ↔ r = 2 ∧ c = 2)) := by
  refine ⟨fun r hr c hc => resetBoard_cellAt b hwf r c hr hc,
    resetBoard_idem b, rfl, rfl, ?_, ?_⟩
  · intro hne r hr c hc
    rw [resetBoard_cellAt b hwf r c hr hc]
    simp [hne]
  · intro h5 r hr c hc
    rw [resetBoard_cellAt b hwf r c hr hc]
    simp only [h5]
    constructor
    · intro h
      have hb : (5 == 5 && r == 2 && c == 2) = true := h
      simp at hb
      omega
    · rintro ⟨hr2, hc2⟩
      subst hr2; subst hc2
      rfl

/-- Witness for the amended C3 theorem at a concrete 3-by-3 board. -/
theorem resetBoard_amended_witness :
    (∀ r, r < demoRowBoard.size → ∀ c, c < demoRowBoard.size →
      cellAt (resetBoard demoRowBoard) r c
        = { cellAt demoRowBoard r c with
            marked := demoRowBoard.size == 5 && r == 2 && c == 2 }) ∧
    resetBoard (resetBoard demoRowBoard) = resetBoard demoRowBoard ∧
    (resetBoard demoRowBoard).size = demoRowBoard.size ∧
    (resetBoard demoRowBoard).id = demoRowBoard.id ∧
    (demoRowBoard.size ≠ 5 → ∀ r, r < demoRowBoard.size → ∀ c, c < demoRowBoard.size →
      (cellAt (resetBoard demoRowBoard) r c).marked = false) ∧
    (demoRowBoard.size = 5 → ∀ r, r < demoRowBoard.size → ∀ c, c < demoRowBoard.size →
      ((cellAt (resetBoard demoRowBoard) r c).marked = true ↔ r = 2 ∧ c = 2)) :=
  resetBoard_amended demoRowBoard ⟨by decide, by decide⟩

/-- Counterexample to claim C3 as stated: a 5-by-5 board generated with
includeFreeSpace set to false has no free-space cell and starts fully
unmarked, yet after resetBoard its centre cell (2,2) is marked, so it is
not the case that resetBoard leaves such a board with no marked cell. -/
theorem resetBoard_counterexample :
    generateSpotifyBingo (fun _ => 0) "cex" (samplePool 25) 5 false
      = Except.ok ((generateSpotifyBingo (fun _ => 0) "cex" (samplePool 25) 5
          false).toOption.getD emptyBoard) ∧
    (((generateSpotifyBingo (fun _ => 0) "cex" (samplePool 25) 5
        false).toOption.getD emptyBoard).cells.all fun rowCells =>
          rowCells.all fun cell => !cell.marked) = true ∧
    (cellAt (resetBoard ((generateSpotifyBingo (fun _ => 0) "cex" (samplePool 25) 5
        false).toOption.getD emptyBoard)) 2 2).marked = true := by
  refine ⟨rfl, by decide, by decide⟩

/-! ### Win detection -/

theorem all_getElem {α : Type} (l : List α) (p : α → Bool) :
    l.all p = true ↔ ∀ i, (h : i < l.length) → p l[i] = true := by
  rw [List.all_eq_true]
  constructor
  · intro h i hi
    exact h _ (List.getElem_mem hi)
  · intro h x hx
    obtain ⟨i, hi, rfl⟩ := List.mem_iff_getElem.mp hx
    exact h i hi

theorem everyIdx_eq_true {α : Type} (p : Nat → α → Bool) :
    ∀ (l : List α) (i : Nat),
      everyIdx p i l = true ↔ ∀ k, (hk : k < l.length) → p (i + k) l[k] = true := by
  intro l
  induction l with
  | nil => intro i; simp [everyIdx]
  | cons x rest ih =>
    intro i
    simp only [everyIdx, Bool.and_eq_true, ih (i + 1)]
    constructor
    · rintro ⟨hx, hrest⟩ k hk
      cases k with
      | zero => simpa using hx
      | succ k =>
        have hk2 : k < rest.length := by simpa using hk
        have := hrest k hk2
        have e : i + (k + 1) = i + 1 + k := by omega
        rw [e]
        simpa using this
    · intro h
      refine ⟨by simpa using h 0 (by simp), fun k hk => ?_⟩
      have hk2 : k + 1 < (x :: rest).length := by simpa using hk
      have := h (k + 1) hk2
      have e : i + (k + 1) = i + 1 + k := by omega
      rw [e] at this
      simpa using this

theorem cellAt_eq_getElem (b : BingoBoard) (r c : Nat) (hrlen : r < b.cells.length)
    (hclen : c < b.cells[r].length) : cellAt b r c = b.cells[r][c] := by
  unfold cellAt
  rw [List.getD_eq_getElem b.cells [] hrlen, List.getD_eq_getElem _ emptyCell hclen]

theorem isRowComplete_iff (b : BingoBoard) (hwf : b.wf) (r : Nat) (hr : r < b.size) :
    isRowComplete b r = true ↔ RowMarked b r := by
  obtain ⟨hlen, hrows⟩ := hwf
  have hrlen : r < b.cells.length := by omega
  have hrowlen : b.cells[r].length = b.size := hrows _ (List.getElem_mem hrlen)
  unfold isRowComplete RowMarked
  rw [List.getD_eq_getElem b.cells [] hrlen, all_getElem]
  constructor
  · intro h c hc
    have hclen : c < b.cells[r].length := by omega
    rw [cellAt_eq_getElem b r c hrlen hclen]
    exact h c hclen
  · intro h i hi
    have hc : i < b.size := by omega
    have := h i hc
    rw [cellAt_eq_getElem b r i hrlen hi] at this
    exact this

theorem isColumnComplete_iff (b : BingoBoard) (hwf : b.wf) (c : Nat) (hc : c < b.size) :
    isColumnComplete b c = true ↔ ColMarked b c := by
  obtain ⟨hlen, hrows⟩ := hwf
  unfold isColumnComplete ColMarked
  rw [all_getElem]
  constructor
  · intro h r hr
    have hrlen : r < b.cells.length := by omega
    have hclen : c < b.cells[r].length := by
      rw [hrows _ (List.getElem_mem hrlen)]; exact hc
    rw [cellAt_eq_getElem b r c hrlen hclen]
    have := h r hrlen
    rw [List.getD_eq_getElem _ emptyCell hclen] at this
    exact this
  · intro h i hi
    have hr : i < b.size := by omega
    have hclen : c < b.cells[i].length := by
      rw [hrows _ (List.getElem_mem hi)]; exact hc
    rw [List.getD_eq_getElem _ emptyCell hclen]
    have := h i hr
    rw [cellAt_eq_getElem b i c hi hclen] at this
    exact this

theorem isDiagonal0Complete_iff (b : BingoBoard) (hwf : b.wf) :
    isDiagonalComplete b 0 = true ↔ Diag0Marked b := by
  obtain ⟨hlen, hrows⟩ := hwf
  have hdef : isDiagonalComplete b 0
      = everyIdx (fun i rowCells => (rowCells.getD i emptyCell).marked) 0 b.cells := rfl
  unfold Diag0Marked
  rw [hdef, everyIdx_eq_true]
  constructor
  · intro h i hi
    have hrlen : i < b.cells.length := by omega
    have hclen : i < b.cells[i].length := by
      rw [hrows _ (List.getElem_mem hrlen)]; exact hi
    rw [cellAt_eq_getElem b i i hrlen hclen]
    have := h i hrlen
    simp only [Nat.zero_add] at this
    rw [List.getD_eq_getElem _ emptyCell hclen] at this
    exact this
  · intro h k hk
    have hi : k < b.size := by omega
    have hclen : k < b.cells[k].length := by
      rw [hrows _ (List.getElem_mem hk)]; exact hi
    have := h k hi
    rw [cellAt_eq_getElem b k k hk hclen] at this
    simp only [Nat.zero_add]
    rw [List.getD_eq_getElem _ emptyCell hclen]
    exact this

theorem isDiagonal1Complete_iff (b : BingoBoard) (hwf : b.wf) :
    isDiagonalComplete b 1 = true ↔ Diag1Marked b := by
  obtain ⟨hlen, hrows⟩ := hwf
  have hdef : isDiagonalComplete b 1
      = everyIdx (fun i rowCells => (rowCells.getD (b.size - 1 - i) emptyCell).marked)
          0 b.cells := rfl
  unfold Diag1Marked
  rw [hdef, everyIdx_eq_true]
  constructor
  · intro h i hi
    have hrlen : i < b.cells.length := by omega
    have hclen : b.size - 1 - i < b.cells[i].length := by
      rw [hrows _ (List.getElem_mem hrlen)]; omega
    rw [cellAt_eq_getElem b i (b.size - 1 - i) hrlen hclen]
    have := h i hrlen
    simp only [Nat.zero_add] at this
    rw [List.getD_eq_getElem _ emptyCell hclen] at this
    exact this
  · intro h k hk
    have hi : k < b.size := by omega
    have hclen : b.size - 1 - k < b.cells[k].length := by
      rw [hrows _ (List.getElem_mem hk)]; omega
    have := h k hi
    rw [cellAt_eq_getElem b k (b.size - 1 - k) hk hclen] at this
    simp only [Nat.zero_add]
    rw [List.getD_eq_getElem _ emptyCell hclen]
    exact this

/-- Claim C4: hasWon is true exactly when some row is fully marked, some
column is fully marked, or one of the two diagonals is fully marked, all
stated directly over the cells; no other pattern (in particular no X
pattern) makes hasWon true. -/
theorem hasWon_iff_lines (b : BingoBoard) (hwf : b.wf) :
    hasWon b = true ↔
      (∃ r, r < b.size ∧ RowMarked b r) ∨ (∃ c, c < b.size ∧ ColMarked b c) ∨
      Diag0Marked b ∨ Diag1Marked b := by
  unfold hasWon
  simp only [Bool.or_eq_true, List.any_eq_true, List.mem_range, or_assoc]
  refine or_congr ?_ (or_congr ?_ (or_congr ?_ ?_))
  · constructor
    · rintro ⟨r, hr, h⟩
      exact ⟨r, hr, (isRowComplete_iff b hwf r hr).mp h⟩
    · rintro ⟨r, hr, h⟩
      exact ⟨r, hr, (isRowComplete_iff b hwf r hr).mpr h⟩
  · constructor
    · rintro ⟨c, hc, h⟩
      exact ⟨c, hc, (isColumnComplete_iff b hwf c hc).mp h⟩
    · rintro ⟨c, hc, h⟩
      exact ⟨c, hc, (isColumnComplete_iff b hwf c hc).mpr h⟩
  · exact isDiagonal0Complete_iff b hwf
  · exact isDiagonal1Complete_iff b hwf

/-- Witness for the C4 theorem: the demo board with exactly row 0 marked
reports a win. -/
theorem hasWon_iff_lines_witness : hasWon demoRowBoard = true :=
  (hasWon_iff_lines demoRowBoard ⟨by decide, by decide⟩).mpr
    (Or.inl ⟨0, by decide, by
      intro c hc
      have hc3 : c < 3 := hc
      interval_cases c <;> rfl⟩)

/-- Claim C7: getCompletedLines returns exactly the identifiers of the
completed lines, each tagged by kind and index: a row identifier for every
fully marked row, a column identifier for every fully marked column, and
the identifier of diagonal 0 or 1 when that diagonal is fully marked, and
nothing else. -/
theorem getCompletedLines_mem_iff (b : BingoBoard) (hwf : b.wf) (s : String) :
    s ∈ getCompletedLines b ↔
      (∃ r, r < b.size ∧ RowMarked b r ∧ s = "row-" ++ toString r) ∨
      (∃ c, c < b.size ∧ ColMarked b c ∧ s = "col-" ++ toString c) ∨
      (Diag0Marked b ∧ s = "diag-0") ∨ (Diag1Marked b ∧ s = "diag-1") := by
  have hmem : ∀ (cond : Bool) (x : String), (s ∈ if cond then [x] else []) ↔
      (cond = true ∧ s = x) := by
    intro cond x
    cases cond <;> simp
  unfold getCompletedLines
  rw [List.mem_append, List.mem_append, List.mem_append, hmem, hmem]
  simp only [or_assoc]
  refine or_congr ?_ (or_congr ?_ (or_congr ?_ ?_))
  · simp only [List.mem_map, List.mem_filter, List.mem_range]
    constructor
    · rintro ⟨r, ⟨hr, hcomp⟩, rfl⟩
      exact ⟨r, hr, (isRowComplete_iff b hwf r hr).mp hcomp, rfl⟩
    · rintro ⟨r, hr, hmarked, rfl⟩
      exact ⟨r, ⟨hr, (isRowComplete_iff b hwf r hr).mpr hmarked⟩, rfl⟩
  · simp only [List.mem_map, List.mem_filter, List.mem_range]
    constructor
    · rintro ⟨c, ⟨hc, hcomp⟩, rfl⟩
      exact ⟨c, hc, (isColumnComplete_iff b hwf c hc).mp hcomp, rfl⟩
    · rintro ⟨c, hc, hmarked, rfl⟩
      exact ⟨c, ⟨hc, (isColumnComplete_iff b hwf c hc).mpr hmarked⟩, rfl⟩
  · constructor
    · rintro ⟨hcomp, rfl⟩
      exact ⟨(isDiagonal0Complete_iff b hwf).mp hcomp, rfl⟩
    · rintro ⟨hmk, rfl⟩
      exact ⟨(isDiagonal0Complete_iff b hwf).mpr hmk, rfl⟩
  · constructor
    · rintro ⟨hcomp, rfl⟩
      exact ⟨(isDiagonal1Complete_iff b hwf).mp hcomp, rfl⟩
    · rintro ⟨hmk, rfl⟩
      exact ⟨(isDiagonal1Complete_iff b hwf).mpr hmk, rfl⟩

/-- Witness for the C7 theorem: on the demo board with exactly row 0
marked, the row-0 identifier is reported; the list is in fact exactly that
single identifier, which the decidable equality check confirms. -/
theorem getCompletedLines_mem_iff_witness :
    ("row-0" ∈ getCompletedLines demoRowBoard ↔
      (∃ r, r < demoRowBoard.size ∧ RowMarked demoRowBoard r ∧
        "row-0" = "row-" ++ toString r) ∨
      (∃ c, c < demoRowBoard.size ∧ ColMarked demoRowBoard c ∧
        "row-0" = "col-" ++ toString c) ∨
      (Diag0Marked demoRowBoard ∧ "row-0" = "diag-0") ∨
      (Diag1Marked demoRowBoard ∧ "row-0" = "diag-1")) ∧
    getCompletedLines demoRowBoard = ["row-0"] :=
  ⟨getCompletedLines_mem_iff demoRowBoard ⟨by decide, by decide⟩ "row-0", by decide⟩

/-! ### Toggling a cell -/

theorem toggleCell_ok (b : BingoBoard) (row col : Nat)
    (hr : row < b.size) (hc : col < b.size) :
    toggleCell b (row : Int) (col : Int)
      = Except.ok
          { b with cells := modifyAt b.cells row fun rowCells =>
              modifyAt rowCells col fun cell => { cell with marked := !cell.marked } } := by
  unfold toggleCell
  have hfalse : (decide ((row : Int) < 0) || decide ((b.size : Int) ≤ (row : Int)) ||
      decide ((col : Int) < 0) || decide ((b.size : Int) ≤ (col : Int))) = false := by
    simp only [Bool.or_eq_false_iff, decide_eq_false_iff_not, not_lt, not_le]
    refine ⟨⟨⟨by omega, by omega⟩, by omega⟩, by omega⟩
  rw [hfalse]
  simp [Int.toNat_natCast]

theorem toggleCell_cellAt (b : BingoBoard) (hwf : b.wf) (row col : Nat)
    (r c : Nat) (hrb : r < b.size) (hcb : c < b.size) :
    cellAt { b with cells := modifyAt b.cells row fun rowCells =>
               modifyAt rowCells col fun cell =>
                 { cell with marked := !cell.marked } } r c
      = if r = row ∧ c = col then
          { cellAt b r c with marked := !(cellAt b r c).marked }
        else cellAt b r c := by
  obtain ⟨hlen, hrows⟩ := hwf
  have hrlen : r < b.cells.length := by omega
  have hclen : c < b.cells[r].length := by
    rw [hrows _ (List.getElem_mem hrlen)]; exact hcb
  have hgetrow : ∀ g : List BingoCell → List BingoCell,
      (modifyAt b.cells row g).getD r []
        = if r = row then g b.cells[r] else b.cells[r] := by
    intro g
    rw [List.getD_eq_getElem?_getD (modifyAt b.cells row g) r [], modifyAt_getElem?,
      List.getElem?_eq_getElem hrlen]
    by_cases hrr : r = row
    · rw [if_pos hrr, if_pos hrr]; rfl
    · rw [if_neg hrr, if_neg hrr]; rfl
  have hgetcell : ∀ f : BingoCell → BingoCell,
      (modifyAt b.cells[r] col f).getD c emptyCell
        = if c = col then f b.cells[r][c] else b.cells[r][c] := by
    intro f
    rw [List.getD_eq_getElem?_getD (modifyAt b.cells[r] col f) c emptyCell,
      modifyAt_getElem?, List.getElem?_eq_getElem hclen]
    by_cases hcc : c = col
    · rw [if_pos hcc, if_pos hcc]; rfl
    · rw [if_neg hcc, if_neg hcc]; rfl
  have hb2 : cellAt { b with cells := modifyAt b.cells row fun rowCells =>
                        modifyAt rowCells col fun cell =>
                          { cell with marked := !cell.marked } } r c
      = ((modifyAt b.cells row fun rowCells =>
          modifyAt rowCells col fun cell =>
            { cell with marked := !cell.marked }).getD r []).getD c emptyCell := rfl
  rw [hb2, hgetrow, cellAt_eq_getElem b r c hrlen hclen]
  by_cases hrr : r = row
  · rw [if_pos hrr]
    show (modifyAt b.cells[r] col fun cell =>
      { cell with marked := !cell.marked }).getD c emptyCell = _
    rw [hgetcell]
    by_cases hcc : c = col
    · rw [if_pos hcc, if_pos ⟨hrr, hcc⟩]
    · rw [if_neg hcc, if_neg (by tauto)]
  · rw [if_neg hrr, if_neg (by tauto), List.getD_eq_getElem _ emptyCell hclen]

/-- Claim C5: toggling an in-range cell succeeds, flips exactly that
cell's marked flag, keeps every other cell and the board id, size and
grid shape unchanged, and toggling the same cell again restores the
original board exactly. -/
theorem toggleCell_flips_exactly_one (b : BingoBoard) (hwf : b.wf) (row col : Nat)
    (hr : row < b.size) (hc : col < b.size) (b2 : BingoBoard)
    (hok : toggleCell b (row : Int) (col : Int) = Except.ok b2) :
    b2.id = b.id ∧ b2.size = b.size ∧ b2.cells.length = b.cells.length ∧
    cellAt b2 row col = { cellAt b row col with marked := !(cellAt b row col).marked } ∧
    (∀ r, r < b.size → ∀ c, c < b.size → ¬(r = row ∧ c = col) →
      cellAt b2 r c = cellAt b r c) ∧
    toggleCell b2 (row : Int) (col : Int) = Except.ok b := by
  rw [toggleCell_ok b row col hr hc] at hok
  simp only [Except.ok.injEq] at hok
  subst hok
  refine ⟨rfl, rfl, modifyAt_length b.cells row _, ?_, ?_, ?_⟩
  · rw [toggleCell_cellAt b hwf row col row col hr hc, if_pos ⟨rfl, rfl⟩]
  · intro r hrb c hcb hne
    rw [toggleCell_cellAt b hwf row col r c hrb hcb, if_neg hne]
  · rw [toggleCell_ok { b with cells := modifyAt b.cells row fun rowCells =>
                          modifyAt rowCells col fun cell =>
                            { cell with marked := !cell.marked } } row col hr hc]
    have hcells : modifyAt (modifyAt b.cells row fun rowCells =>
        modifyAt rowCells col fun cell => { cell with marked := !cell.marked }) row
          (fun rowCells => modifyAt rowCells col fun cell =>
            { cell with marked := !cell.marked })
        = b.cells := by
      rw [modifyAt_modifyAt]
      apply modifyAt_of_id
      intro rowCells
      rw [modifyAt_modifyAt]
      apply modifyAt_of_id
      intro cell
      simp [Bool.not_not]
    rw [show ({ b with cells := modifyAt b.cells row fun rowCells =>
                  modifyAt rowCells col fun cell =>
                    { cell with marked := !cell.marked } } :
        BingoBoard).cells
      = modifyAt b.cells row fun rowCells =>
          modifyAt rowCells col fun cell => { cell with marked := !cell.marked } from rfl,
      hcells]

/-- Witness for the C5 theorem: toggling cell (1,1) of the demo board. -/
theorem toggleCell_flips_exactly_one_witness :
    ((toggleCell demoRowBoard 1 1).toOption.getD emptyBoard).id = demoRowBoard.id ∧
    ((toggleCell demoRowBoard 1 1).toOption.getD emptyBoard).size = demoRowBoard.size ∧
    ((toggleCell demoRowBoard 1 1).toOption.getD emptyBoard).cells.length
      = demoRowBoard.cells.length ∧
    cellAt ((toggleCell demoRowBoard 1 1).toOption.getD emptyBoard) 1 1
      = { cellAt demoRowBoard 1 1 with marked := !(cellAt demoRowBoard 1 1).marked } ∧
    (∀ r, r < demoRowBoard.size → ∀ c, c < demoRowBoard.size → ¬(r = 1 ∧ c = 1) →
      cellAt ((toggleCell demoRowBoard 1 1).toOption.getD emptyBoard) r c
        = cellAt demoRowBoard r c) ∧
    toggleCell ((toggleCell demoRowBoard 1 1).toOption.getD emptyBoard) 1 1
      = Except.ok demoRowBoard :=
  toggleCell_flips_exactly_one demoRowBoard ⟨by decide, by decide⟩ 1 1
    (by decide) (by decide)
    ((toggleCell demoRowBoard 1 1).toOption.getD emptyBoard) rfl

/-- Claim C6: toggleCell fails, with the invalid-position message, exactly
when the requested position lies outside the board, and in-range positions
always produce an updated board (the original board value is untouched by
the failing call, which returns only the error). -/
theorem toggleCell_error_iff (b : BingoBoard) (row col : Int) :
    (toggleCell b row col = Except.error (invalidPosMsg row col)
      ↔ (row < 0 ∨ (b.size : Int) ≤ row ∨ col < 0 ∨ (b.size : Int) ≤ col)) ∧
    (¬(row < 0 ∨ (b.size : Int) ≤ row ∨ col < 0 ∨ (b.size : Int) ≤ col)
      ↔ ∃ b2, toggleCell b row col = Except.ok b2) := by
  unfold toggleCell
  by_cases h : row < 0 ∨ (b.size : Int) ≤ row ∨ col < 0 ∨ (b.size : Int) ≤ col
  · have hb : (decide (row < 0) || decide ((b.size : Int) ≤ row) ||
        decide (col < 0) || decide ((b.size : Int) ≤ col)) = true := by
      simp only [Bool.or_eq_true, decide_eq_true_eq]
      tauto
    rw [hb]
    simp [h]
  · have hb : (decide (row < 0) || decide ((b.size : Int) ≤ row) ||
        decide (col < 0) || decide ((b.size : Int) ≤ col)) = false := by
      push_neg at h
      simp only [Bool.or_eq_false_iff, decide_eq_false_iff_not, not_lt, not_le]
      exact ⟨⟨⟨h.1, h.2.1⟩, h.2.2.1⟩, h.2.2.2⟩
    rw [hb]
    simp [h]

/-! ### Batch rendering: pages and archive entries -/

theorem pdfContentAux_length (sfs : Bool) :
    ∀ (boards : List BingoBoard) (i : Nat),
      (pdfContentAux sfs i boards).length = boards.length := by
  intro boards
  induction boards with
  | nil => intro i; rfl
  | cons bh bt ih => intro i; simp [pdfContentAux, ih (i + 1)]

theorem pdfContentAux_bodies (sfs : Bool) :
    ∀ (boards : List BingoBoard) (i : Nat),
      (pdfContentAux sfs i boards).map ContentItem.body
        = boards.map fun board => boardToPDFTableBody board sfs := by
  intro boards
  induction boards with
  | nil => intro i; rfl
  | cons bh bt ih => intro i; simp [pdfContentAux, ih (i + 1)]

theorem pdfContentAux_breaks (sfs : Bool) :
    ∀ (boards : List BingoBoard) (i : Nat), 1 ≤ i →
      ∀ item ∈ pdfContentAux sfs i boards, item.pageBreakBefore = true := by
  intro boards
  induction boards with
  | nil => intro i hi item hmem; simp [pdfContentAux] at hmem
  | cons bh bt ih =>
    intro i hi item hmem
    simp only [pdfContentAux, List.mem_cons] at hmem
    rcases hmem with h | h
    · subst h
      show (i != 0) = true
      simp
      omega
    · exact ih (i + 1) (by omega) item h

theorem paginateAux_all_breaks :
    ∀ (items : List ContentItem) (cur : List ContentItem),
      (∀ item ∈ items, item.pageBreakBefore = true) →
      paginateAux cur items = cur :: items.map fun item => [item] := by
  intro items
  induction items with
  | nil => intro cur h; rfl
  | cons item rest ih =>
    intro cur h
    have hb := h item (List.mem_cons_self item rest)
    unfold paginateAux
    rw [hb]
    simp only [if_true]
    rw [ih [item] fun x hx => h x (List.mem_cons_of_mem _ hx)]
    rfl

theorem paginate_pdfContent (sfs : Bool) (bh : BingoBoard) (bt : List BingoBoard) :
    paginate (generateBingoBoardsPDFContent (bh :: bt) sfs)
      = (generateBingoBoardsPDFContent (bh :: bt) sfs).map fun item => [item] := by
  have hcons : generateBingoBoardsPDFContent (bh :: bt) sfs
      = { pageBreakBefore := false, body := boardToPDFTableBody bh sfs }
        :: pdfContentAux sfs 1 bt := rfl
  rw [hcons]
  show paginateAux _ _ = _
  rw [paginateAux_all_breaks (pdfContentAux sfs 1 bt) _
    (pdfContentAux_breaks sfs bt 1 (le_refl 1))]
  rfl

theorem imagesZipAux_length (renderImage : BingoBoard → Nat → Bool → List Nat)
    (sfs : Bool) :
    ∀ (boards : List BingoBoard) (i : Nat),
      (imagesZipAux renderImage sfs i boards).length = boards.length := by
  intro boards
  induction boards with
  | nil => intro i; rfl
  | cons bh bt ih => intro i; simp [imagesZipAux, ih (i + 1)]

theorem imagesZipAux_getD (renderImage : BingoBoard → Nat → Bool → List Nat)
    (sfs : Bool) :
    ∀ (boards : List BingoBoard) (i k : Nat), k < boards.length →
      (imagesZipAux renderImage sfs i boards).getD k ("", [])
        = ("bingo_board_" ++ padStart (toString (i + k + 1)) 3 '0' ++ ".png",
           renderImage (boards.getD k emptyBoard) (i + k + 1) sfs) := by
  intro boards
  induction boards with
  | nil => intro i k hk; simp at hk
  | cons bh bt ih =>
    intro i k hk
    cases k with
    | zero => simp [imagesZipAux]
    | succ k =>
      have hk2 : k < bt.length := by simpa using hk
      have := ih (i + 1) k hk2
      have e : i + 1 + k = i + (k + 1) := by omega
      rw [e] at this
      simpa [imagesZipAux] using this

theorem pdfZipAux_length (renderBoardPDF : BingoBoard → Nat → Bool → List Nat)
    (sfs : Bool) :
    ∀ (boards : List BingoBoard) (i : Nat),
      (pdfZipAux renderBoardPDF sfs i boards).length = boards.length := by
  intro boards
  induction boards with
  | nil => intro i; rfl
  | cons bh bt ih => intro i; simp [pdfZipAux, ih (i + 1)]

theorem pdfZipAux_getD (renderBoardPDF : BingoBoard → Nat → Bool → List Nat)
    (sfs : Bool) :
    ∀ (boards : List BingoBoard) (i k : Nat), k < boards.length →
      (pdfZipAux renderBoardPDF sfs i boards).getD k ("", [])
        = ("bingo_board_" ++ padStart (toString (i + k + 1)) 3 '0' ++ ".pdf",
           renderBoardPDF (boards.getD k emptyBoard) (i + k + 1) sfs) := by
  intro boards
  induction boards with
  | nil => intro i k hk; simp at hk
  | cons bh bt ih =>
    intro i k hk
    cases k with
    | zero => simp [pdfZipAux]
    | succ k =>
      have hk2 : k < bt.length := by simpa using hk
      have := ih (i + 1) k hk2
      have e : i + 1 + k = i + (k + 1) := by omega
      rw [e] at this
      simpa [pdfZipAux] using this

/-- Claim C8 (amended): on a non-empty board list the single-document
content yields one page per board in board order (pages modelled from the
spec for the external pdfmake renderer), and each per-board archive holds
exactly one entry per board in board order, named bingo_board_ followed by
the 1-based index left-padded with zeros to a minimum width of 3 (so the
index is 3 digits whenever the board count is at most 999, but grows to
four digits from the 1000th board on) and the extension of the output
kind. -/
theorem renderBatch_pages_and_entries (boards : List BingoBoard) (sfs : Bool)
    (renderImage renderBoardPDF : BingoBoard → Nat → Bool → List Nat)
    (hne : boards ≠ []) :
    paginate (generateBingoBoardsPDFContent boards sfs)
      = (generateBingoBoardsPDFContent boards sfs).map (fun item => [item]) ∧
    (paginate (generateBingoBoardsPDFContent boards sfs)).length = boards.length ∧
    (generateBingoBoardsPDFContent boards sfs).map ContentItem.body
      = boards.map (fun board => boardToPDFTableBody board sfs) ∧
    (generateBingoBoardsImagesZip renderImage boards sfs).length = boards.length ∧
    (∀ k, k < boards.length →
      (generateBingoBoardsImagesZip renderImage boards sfs).getD k ("", [])
        = ("bingo_board_" ++ padStart (toString (k + 1)) 3 '0' ++ ".png",
           renderImage (boards.getD k emptyBoard) (k + 1) sfs)) ∧
    (generateBingoBoardsPDFZip renderBoardPDF boards sfs).length = boards.length ∧
    (∀ k, k < boards.length →
      (generateBingoBoardsPDFZip renderBoardPDF boards sfs).getD k ("", [])
        = ("bingo_board_" ++ padStart (toString (k + 1)) 3 '0' ++ ".pdf",
           renderBoardPDF (boards.getD k emptyBoard) (k + 1) sfs)) ∧
    (∀ n, n < 1000 → 1 ≤ n → (padStart (toString n) 3 '0').length = 3) := by
  obtain ⟨bh, bt, rfl⟩ : ∃ bh bt, boards = bh :: bt := by
    cases boards with
    | nil => exact absurd rfl hne
    | cons bh bt => exact ⟨bh, bt, rfl⟩
  refine ⟨paginate_pdfContent sfs bh bt, ?_, pdfContentAux_bodies sfs (bh :: bt) 0,
    imagesZipAux_length renderImage sfs (bh :: bt) 0, ?_,
    pdfZipAux_length renderBoardPDF sfs (bh :: bt) 0, ?_, by decide⟩
  · rw [paginate_pdfContent sfs bh bt, List.length_map]
    exact pdfContentAux_length sfs (bh :: bt) 0
  · intro k hk
    have := imagesZipAux_getD renderImage sfs (bh :: bt) 0 k hk
    simpa using this
  · intro k hk
    have := pdfZipAux_getD renderBoardPDF sfs (bh :: bt) 0 k hk
    simpa using this

/-- Witness for the amended C8 theorem on a single-board list. -/
theorem renderBatch_pages_and_entries_witness :
    paginate (generateBingoBoardsPDFContent [demoRowBoard] true)
      = (generateBingoBoardsPDFContent [demoRowBoard] true).map (fun item => [item]) ∧
    (paginate (generateBingoBoardsPDFContent [demoRowBoard] true)).length
      = [demoRowBoard].length ∧
    (generateBingoBoardsPDFContent [demoRowBoard] true).map ContentItem.body
      = [demoRowBoard].map (fun board => boardToPDFTableBody board true) ∧
    (generateBingoBoardsImagesZip (fun _ _ _ => []) [demoRowBoard] true).length
      = [demoRowBoard].length ∧
    (∀ k, k < [demoRowBoard].length →
      (generateBingoBoardsImagesZip (fun _ _ _ => []) [demoRowBoard] true).getD k ("", [])
        = ("bingo_board_" ++ padStart (toString (k + 1)) 3 '0' ++ ".png",
           (fun (_ : BingoBoard) (_ : Nat) (_ : Bool) => ([] : List Nat))
             ([demoRowBoard].getD k emptyBoard) (k + 1) true)) ∧
    (generateBingoBoardsPDFZip (fun _ _ _ => []) [demoRowBoard] true).length
      = [demoRowBoard].length ∧
    (∀ k, k < [demoRowBoard].length →
      (generateBingoBoardsPDFZip (fun _ _ _ => []) [demoRowBoard] true).getD k ("", [])
        = ("bingo_board_" ++ padStart (toString (k + 1)) 3 '0' ++ ".pdf",
           (fun (_ : BingoBoard) (_ : Nat) (_ : Bool) => ([] : List Nat))
             ([demoRowBoard].getD k emptyBoard) (k + 1) true)) ∧
    (∀ n, n < 1000 → 1 ≤ n → (padStart (toString n) 3 '0').length = 3) :=
  renderBatch_pages_and_entries [demoRowBoard] true (fun _ _ _ => [])
    (fun _ _ _ => []) (by simp)

/-- Counterexample to claim C8 as stated: with 1000 boards the 1000th
archive entry is named bingo_board_1000.png, whose index part has four
digits, not three; padStart pads only up to the target width and leaves
longer indices untouched. -/
theorem imagesZip_name_digit_overflow :
    ((generateBingoBoardsImagesZip (fun _ _ _ => []) (List.replicate 1000 emptyBoard)
        true).getD 999 ("", [])).1 = "bingo_board_1000.png" ∧
    (padStart (toString 1000) 3 '0').length = 4 ∧
    "bingo_board_1000.png".length ≠ "bingo_board_".length + 3 + ".png".length := by
  refine ⟨?_, by decide, by decide⟩
  have h := imagesZipAux_getD (fun _ _ _ => ([] : List Nat)) true
    (List.replicate 1000 emptyBoard) 0 999 (by simp)
  rw [show generateBingoBoardsImagesZip (fun _ _ _ => ([] : List Nat))
      (List.replicate 1000 emptyBoard) true
    = imagesZipAux (fun _ _ _ => []) true 0 (List.replicate 1000 emptyBoard) from rfl, h]
  rfl

/-! ### Export packaging -/

theorem isoDatePart_of_split (date rest : String)
    (hd : ∀ ch ∈ date.data, ch ≠ 'T') :
    isoDatePart (date ++ "T" ++ rest) = date := by
  unfold isoDatePart
  have hdec : (date ++ "T" ++ rest).data = date.data ++ ('T' :: rest.data) := by
    rw [String.data_append, String.data_append]
    simp
  rw [hdec, List.takeWhile_append_of_pos (by intro x hx; simpa using hd x hx)]
  have h2 : List.takeWhile (fun ch => ch != 'T') ('T' :: rest.data) = [] := by
    simp [List.takeWhile_cons]
  rw [h2, List.append_nil]

/-- Claim C9: a successful export returns a payload whose buffer is the
base64 encoding of exactly the rendered bytes and whose filename is
bingo_boards_ followed by the date part of the current ISO timestamp (the
prefix before the T separator) and the extension of the output kind, pdf
for the single document and zip for the per-board archive; the packager
adds nothing else. -/
theorem export_payload_spec (songs : List PlaylistSongInfo) (boardCount boardSize : Nat)
    (fs : Bool) (rand : Nat → Nat → Nat) (boardIds : Nat → String)
    (renderPDF renderZip : List BingoBoard → List Nat) (base64 : List Nat → String)
    (date rest : String) (boards : List BingoBoard)
    (hgen : generateMultipleBoards rand boardIds songs boardCount boardSize fs
      = Except.ok boards)
    (hdate : ∀ ch ∈ date.data, ch ≠ 'T') :
    exportPDFRun songs boardCount boardSize fs rand boardIds renderPDF base64
        (date ++ "T" ++ rest)
      = Except.ok { buffer := base64 (renderPDF boards),
                    filename := "bingo_boards_" ++ date ++ ".pdf" } ∧
    exportZIPRun songs boardCount boardSize fs rand boardIds renderZip base64
        (date ++ "T" ++ rest)
      = Except.ok { buffer := base64 (renderZip boards),
                    filename := "bingo_boards_" ++ date ++ ".zip" } := by
  unfold exportPDFRun exportZIPRun
  rw [hgen, isoDatePart_of_split date rest hdate]
  exact ⟨rfl, rfl⟩

/-- Witness for the C9 theorem: a concrete export of two 3-by-3 boards on
a fixed date. -/
theorem export_payload_spec_witness :
    exportPDFRun (samplePool 9) 2 3 false (fun _ _ => 0) (fun i => toString i)
        (fun _ => [1]) (fun l => toString l.length) ("2026-10-11" ++ "T" ++ "00:00Z")
      = Except.ok
          { buffer := (fun (l : List Nat) => toString l.length)
              ((fun (_ : List BingoBoard) => [1])
                ((generateMultipleBoards (fun _ _ => 0) (fun i => toString i)
                  (samplePool 9) 2 3 false).toOption.getD [])),
            filename := "bingo_boards_" ++ "2026-10-11" ++ ".pdf" } ∧
    exportZIPRun (samplePool 9) 2 3 false (fun _ _ => 0) (fun i => toString i)
        (fun _ => [2]) (fun l => toString l.length) ("2026-10-11" ++ "T" ++ "00:00Z")
      = Except.ok
          { buffer := (fun (l : List Nat) => toString l.length)
              ((fun (_ : List BingoBoard) => [2])
                ((generateMultipleBoards (fun _ _ => 0) (fun i => toString i)
                  (samplePool 9) 2 3 false).toOption.getD [])),
            filename := "bingo_boards_" ++ "2026-10-11" ++ ".zip" } :=
  export_payload_spec (samplePool 9) 2 3 false (fun _ _ => 0) (fun i => toString i)
    (fun _ => [1]) (fun _ => [2]) (fun l => toString l.length) "2026-10-11" "00:00Z"
    ((generateMultipleBoards (fun _ _ => 0) (fun i => toString i)
      (samplePool 9) 2 3 false).toOption.getD [])
    rfl (by decide)
